import Mathlib

/-!
Shallow embedding of pymatgen's LOBSTER output readers
(`pymatgen/io/lobster.py`): the `Cohpcar` COHPCAR/COOPCAR curve decoder,
its `_get_bond_data` bond-header parser, and the `Icohplist`
ICOHPLIST/ICOOPLIST summary decoder.

Modelling conventions:
* a file's text is represented by its list of lines, i.e. the result of
  Python's `f.read().split("\n")`;
* machine floats are modelled as exact rationals; `float(...)` and
  `int(...)` become `parseFloat?` and `parseInt?`, returning `none`
  where Python raises `ValueError`;
* every construction failure (`ValueError`, `IndexError`, ...) is
  collapsed into `none`, so each decoder is a total function
  `List String → Option Output` and the spec's single `FormatError`
  kind is the `none` outcome;
* the `numpy` transposition `np.array(rows).transpose()` is modelled by
  `getCol`: the row matrix must be rectangular (`np.array` raises on
  inhomogeneously shaped nested input) and out-of-range column access
  fails like `IndexError`.
-/

/-- Python whitespace characters, as used by `str.split()` / `str.strip()`. -/
def isPyWs (c : Char) : Bool :=
  c == ' ' || c == '\t' || c == '\n' || c == '\r' || c == '\x0b' || c == '\x0c'

/-- Boolean test that `pat` occurs at the start of `cs`. -/
def chPre : List Char → List Char → Bool
  | [], _ => true
  | _ :: _, [] => false
  | a :: as, b :: bs => a == b && chPre as bs

/-- Helper for Python's substring test `pat in s`, over character lists. -/
def strContainsL (pat : List Char) : List Char → Bool
  | [] => chPre pat []
  | c :: rest => chPre pat (c :: rest) || strContainsL pat rest

/-- Python's substring containment test `pat in s`. -/
def strContains (s pat : String) : Bool := strContainsL pat.toList s.toList

/-- Fuel-driven splitter on maximal runs of separator characters. It
produces the boundary empty pieces that Python's `re.split` produces. -/
def splitRunsFuel (p : Char → Bool) : Nat → List Char → List (List Char)
  | 0, cs => [cs]
  | fuel + 1, cs =>
    let piece := cs.takeWhile (fun c => !(p c))
    match cs.dropWhile (fun c => !(p c)) with
    | [] => [piece]
    | _ :: tail => piece :: splitRunsFuel p fuel (tail.dropWhile p)

/-- Split on maximal runs of characters satisfying `p`. -/
def splitRuns (p : Char → Bool) (cs : List Char) : List (List Char) :=
  splitRunsFuel p (cs.length + 1) cs

/-- Python `re.split` with a character-class pattern such as `\D+` / `\d+`. -/
def reSplit (p : Char → Bool) (s : String) : List String :=
  (splitRuns p s.toList).map (fun l => String.mk l)

/-- Python `re.split("\D+", s)`: split on runs of non-digit characters. -/
def reSplitNonDigit (s : String) : List String :=
  reSplit (fun c => !(c.isDigit)) s

/-- Python `re.split("\d+", s)`: split on runs of digit characters. -/
def reSplitDigit (s : String) : List String :=
  reSplit (fun c => c.isDigit) s

/-- Python `str.split()` without an argument: split on whitespace runs
and drop the empty pieces. -/
def pySplitWs (s : String) : List String :=
  ((splitRuns isPyWs s.toList).map (fun l => String.mk l)).filter (fun t => t ≠ "")

/-- Locate the first occurrence of `sep` in `cs`, returning the pieces
before and after it. -/
def findSplitAux (sep : List Char) : List Char → Option (List Char × List Char)
  | [] => if chPre sep [] then some ([], []) else none
  | c :: rest =>
    if chPre sep (c :: rest) then some ([], (c :: rest).drop sep.length)
    else
      match findSplitAux sep rest with
      | some (pre, post) => some (c :: pre, post)
      | none => none

/-- Fuel-driven worker for `pySplitOn`. -/
def splitOnFuel (sep : List Char) : Nat → List Char → List (List Char)
  | 0, cs => [cs]
  | fuel + 1, cs =>
    match findSplitAux sep cs with
    | none => [cs]
    | some (pre, post) => pre :: splitOnFuel sep fuel post

/-- Python `str.split(sep)` for a non-empty separator: keeps empty pieces. -/
def pySplitOn (s sep : String) : List String :=
  (splitOnFuel sep.toList (s.toList.length + 1) s.toList).map (fun l => String.mk l)

/-- Fuel-driven worker for `replaceStr`. -/
def replaceFuel (pat rep : List Char) : Nat → List Char → List Char
  | 0, cs => cs
  | fuel + 1, cs =>
    match findSplitAux pat cs with
    | none => cs
    | some (pre, post) => pre ++ rep ++ replaceFuel pat rep fuel post

/-- Python `str.replace(pat, rep)`: non-overlapping, left to right. -/
def replaceStr (s pat rep : String) : String :=
  String.mk (replaceFuel pat.toList rep.toList (s.toList.length + 1) s.toList)

/-- Python string slice `s[:-1]`. -/
def strDropLast (s : String) : String := String.mk s.toList.dropLast

/-- Python `str.strip()`. -/
def trimWs (s : String) : String :=
  String.mk (((s.toList.dropWhile isPyWs).reverse.dropWhile isPyWs).reverse)

/-- Numeric value of a list of decimal digit characters. -/
def digitsVal (cs : List Char) : Nat :=
  cs.foldl (fun a c => 10 * a + (c.toNat - 48)) 0

/-- Split a character list into its leading digit run and the rest. -/
def takeDigits (cs : List Char) : List Char × List Char :=
  (cs.takeWhile Char.isDigit, cs.dropWhile Char.isDigit)

/-- Python `int(s)`: optional sign followed by decimal digits, with
surrounding whitespace allowed; `none` models `ValueError`. -/
def parseInt? (s : String) : Option Int :=
  let cs := (trimWs s).toList
  let sgn : Bool × List Char :=
    match cs with
    | '+' :: r => (false, r)
    | '-' :: r => (true, r)
    | r => (false, r)
  if sgn.2.isEmpty || !(sgn.2.all Char.isDigit) then none
  else some (if sgn.1 then -(digitsVal sgn.2 : Int) else (digitsVal sgn.2 : Int))

/-- Exponent tail of a decimal float literal: optional sign and digits. -/
def parseExpTail (r : List Char) : Option Int :=
  let sgn : Bool × List Char :=
    match r with
    | '+' :: r2 => (false, r2)
    | '-' :: r2 => (true, r2)
    | r2 => (false, r2)
  if sgn.2.isEmpty || !(sgn.2.all Char.isDigit) then none
  else some (if sgn.1 then -(digitsVal sgn.2 : Int) else (digitsVal sgn.2 : Int))

/-- Python `float(s)` restricted to finite decimal notation: optional
sign, integer part, optional fractional part, optional decimal exponent.
LOBSTER emits only such literals; other spellings are modelled as
failures. The value is kept exact, as a rational. -/
def parseFloat? (s : String) : Option ℚ :=
  let cs0 := (trimWs s).toList
  let sgn : Bool × List Char :=
    match cs0 with
    | '+' :: r => (false, r)
    | '-' :: r => (true, r)
    | r => (false, r)
  let ipRest := takeDigits sgn.2
  let fpRest : List Char × List Char :=
    match ipRest.2 with
    | '.' :: r => takeDigits r
    | r => ([], r)
  if ipRest.1.isEmpty && fpRest.1.isEmpty then none
  else
    let mant : ℚ :=
      (digitsVal ipRest.1 : ℚ) + (digitsVal fpRest.1 : ℚ) / ((10 : ℚ) ^ fpRest.1.length)
    let expo : Option Int :=
      match fpRest.2 with
      | [] => some 0
      | 'e' :: r => parseExpTail r
      | 'E' :: r => parseExpTail r
      | _ => none
    match expo with
    | none => none
    | some e =>
      let mag : ℚ := if 0 ≤ e then mant * (10 : ℚ) ^ e.toNat else mant / (10 : ℚ) ^ (-e).toNat
      some (if sgn.1 then -mag else mag)

/-- Python list indexing `l[i]` with negative-index wraparound; `none`
models `IndexError`. -/
def pyGet? (l : List α) (i : Int) : Option α :=
  let j := if i < 0 then i + l.length else i
  if 0 ≤ j then l.get? j.toNat else none

/-- Python list slice `l[i:]`. -/
def pySliceFrom (l : List α) (i : Int) : List α :=
  if i < 0 then l.drop (i + l.length).toNat else l.drop i.toNat

/-- Python `range(n)` for a possibly negative bound. -/
def intRange (n : Int) : List Nat := List.range n.toNat

/-- Explicit option sequencing used throughout the decoders. -/
def obind (x : Option α) (f : α → Option β) : Option β :=
  match x with
  | none => none
  | some a => f a

/-- Sequence a fallible function over a list, failing if any element fails. -/
def omapM (f : α → Option β) : List α → Option (List β)
  | [] => some []
  | a :: as => obind (f a) (fun b => obind (omapM f as) (fun bs => some (b :: bs)))

/-- Python dict assignment `d[k] = v` on an association list: overwrite
the existing entry in place, else append; this matches dict
insertion-order semantics. -/
def dictSet : List (String × β) → String → β → List (String × β)
  | [], k, v => [(k, v)]
  | p :: rest, k, v => if p.1 = k then (k, v) :: rest else p :: dictSet rest k v

/-- Python dict lookup `d[k]` on an association list. -/
def dictGet? (d : List (String × β)) (k : String) : Option β :=
  (d.find? (fun p => p.1 == k)).map Prod.snd

/-- Keys of an association list, in insertion order. -/
def dictKeys (d : List (String × β)) : List String := d.map Prod.fst

/-- Width of a rectangular row-major matrix; `none` when there are no
rows or the rows are ragged (where `np.array` raises). -/
def rectWidth : List (List ℚ) → Option Nat
  | [] => none
  | r :: rs => if rs.all (fun x => x.length == r.length) then some r.length else none

/-- Column `i` (with Python negative-index wraparound) of the transposed
data matrix `np.array(rows).transpose()`. -/
def getCol (rows : List (List ℚ)) (i : Int) : Option (List ℚ) :=
  obind (rectWidth rows) (fun w =>
    let j := if i < 0 then i + w else i
    if 0 ≤ j ∧ j < w then some (rows.map (fun r => r.getD j.toNat 0)) else none)

/-- One spin channel is always present (`Spin.up`); the second
(`Spin.down`) is present exactly in spin-polarized files. Records model
the per-spin dicts `{Spin.up: ..., Spin.down: ...}` of the source with
an always-present `up` field and an optional `down` field. -/
structure CohpBond where
  cohp_up : List ℚ
  cohp_down : Option (List ℚ)
  icohp_up : List ℚ
  icohp_down : Option (List ℚ)
  blength : Option ℚ
  sites : Option (Int × Int)
deriving DecidableEq, Repr

/-- Decoded `Cohpcar` object: fields `efermi`, `is_spin_polarized`,
`energies` and `cohp_data` of the source class. -/
structure CohpcarOut where
  efermi : ℚ
  is_spin_polarized : Bool
  energies : List ℚ
  cohp_data : List (String × CohpBond)
deriving DecidableEq, Repr

/-- One entry of the decoded `Icohplist.icohplist` dict. -/
structure IcohpBond where
  blength : ℚ
  number_of_bonds : Int
  icohp_up : ℚ
  icohp_down : Option ℚ
deriving DecidableEq, Repr

/-- Decoded `Icohplist` object: fields `is_spin_polarized` and
`icohplist` of the source class. -/
structure IcohplistOut where
  is_spin_polarized : Bool
  icohplist : List (String × IcohpBond)
deriving DecidableEq, Repr

/-- The label `"%s%d-%s%d" % (species[0], site_indices[0] + 1,
species[1], site_indices[1] + 1)` built by `Cohpcar._get_bond_data`. -/
def mkLabel (s0 : String) (i0 : Int) (s1 : String) (i1 : Int) : String :=
  s0 ++ toString (i0 + 1) ++ ("-") ++ s1 ++ toString (i1 + 1)

/-- The zero-based site index of one site token:
`int(re.split("\D+", site)[1]) - 1`. -/
def siteIndex? (site : String) : Option Int :=
  obind ((reSplitNonDigit site).get? 1) (fun p =>
  obind (parseInt? p) (fun n => some (n - 1)))

/-- The species part of one site token: `re.split("\d+", site)[0]`. -/
def siteSpecies? (site : String) : Option String :=
  (reSplitDigit site).get? 0

/-- The text before the first `"("` of a bond-header line, i.e.
`line.split("(")[0]`. -/
def bondPathText (line : String) : String :=
  (pySplitOn line ("(")).getD 0 ("")

/-- The colon-delimited site tokens after the `No.<n>` tag segment:
`line.split("(")[0].replace("->", ":").split(":")[1:]`. -/
def siteTokens (line : String) : List String :=
  (pySplitOn (replaceStr (bondPathText line) ("->") (":")) (":")).drop 1

/-- `Cohpcar._get_bond_data`: extract bond label, bond length and the
zero-based site-index pair from one LOBSTER bond-header line. -/
def Cohpcar.get_bond_data (line : String) : Option (String × ℚ × (Int × Int)) :=
  let parts := pySplitOn line ("(")
  obind (pyGet? parts (-1)) (fun lastPart =>
  obind (parseFloat? (strDropLast lastPart)) (fun len =>
  obind (pyGet? parts 0) (fun head0 =>
  let sitesl := ((pySplitOn (replaceStr head0 ("->") (":")) (":")).drop 1).take 2
  obind (omapM siteIndex? sitesl) (fun idx =>
  obind (omapM siteSpecies? sitesl) (fun specs =>
  obind (idx.get? 0) (fun i0 =>
  obind (idx.get? 1) (fun i1 =>
  obind (specs.get? 0) (fun s0 =>
  obind (specs.get? 1) (fun s1 =>
  some (mkLabel s0 i0 s1 i1, len, (i0, i1)))))))))))

/-- The whitespace-split parameter tokens of line 2 of a COHPCAR file:
`contents[1].split()`. -/
def headerParams (contents : List String) : Option (List String) :=
  obind (pyGet? contents 1) (fun l => some (pySplitWs l))

/-- `num_bonds = int(parameters[0]) - 1`. -/
def headerNumBonds (contents : List String) : Option Int :=
  obind (headerParams contents) (fun ps =>
  obind (ps.get? 0) (fun t =>
  obind (parseInt? t) (fun n => some (n - 1))))

/-- `efermi = float(parameters[-1])`. -/
def headerEfermi (contents : List String) : Option ℚ :=
  obind (headerParams contents) (fun ps =>
  obind (pyGet? ps (-1)) (fun t => parseFloat? t))

/-- `int(parameters[1])`, compared with 2 to detect spin polarization. -/
def headerSpinFlag (contents : List String) : Option Int :=
  obind (headerParams contents) (fun ps =>
  obind (ps.get? 1) (fun t => parseInt? t))

/-- One data row `np.array(row.split(), dtype=float)`. -/
def parseRow (s : String) : Option (List ℚ) :=
  omapM parseFloat? (pySplitWs s)

/-- The numeric matrix parsed from `contents[num_bonds + 3:]`. -/
def dataRows (contents : List String) (nb : Int) : Option (List (List ℚ)) :=
  omapM parseRow (pySliceFrom contents (nb + 3))

/-- The synthetic `"average"` record of `Cohpcar.__init__`: columns
`data[1 + 2*s*(num_bonds+1)]` (COHP) and `data[2 + 2*s*(num_bonds+1)]`
(ICOHP) for each spin channel `s`. -/
def avgEntry (rows : List (List ℚ)) (nb : Int) (spin : Bool) : Option CohpBond :=
  obind (getCol rows (1 + 2 * 0 * (nb + 1))) (fun cu =>
  obind (getCol rows (2 + 2 * 0 * (nb + 1))) (fun iu =>
  cond spin
    (obind (getCol rows (1 + 2 * 1 * (nb + 1))) (fun cd =>
     obind (getCol rows (2 + 2 * 1 * (nb + 1))) (fun idn =>
     some ⟨cu, some cd, iu, some idn, none, none⟩)))
    (some ⟨cu, none, iu, none, none, none⟩)))

/-- The per-bond record of iteration `bond` of the loop in
`Cohpcar.__init__`: header line `contents[3 + bond]`, columns
`data[2*(bond + s*(num_bonds+1)) + 3]` (COHP) and
`data[2*(bond + s*(num_bonds+1)) + 4]` (ICOHP) per spin channel `s`. -/
def bondEntry (contents : List String) (rows : List (List ℚ)) (nb : Int)
    (spin : Bool) (bond : Nat) : Option (String × CohpBond) :=
  obind (pyGet? contents (3 + (bond : Int))) (fun hline =>
  obind (Cohpcar.get_bond_data hline) (fun bd =>
  obind (getCol rows (2 * ((bond : Int) + 0 * (nb + 1)) + 3)) (fun cu =>
  obind (getCol rows (2 * ((bond : Int) + 0 * (nb + 1)) + 4)) (fun iu =>
  cond spin
    (obind (getCol rows (2 * ((bond : Int) + 1 * (nb + 1)) + 3)) (fun cd =>
     obind (getCol rows (2 * ((bond : Int) + 1 * (nb + 1)) + 4)) (fun idn =>
     some (bd.1, ⟨cu, some cd, iu, some idn, some bd.2.1, some bd.2.2⟩))))
    (some (bd.1, ⟨cu, none, iu, none, some bd.2.1, some bd.2.2⟩))))))

/-- `Cohpcar.__init__` over the list of lines of the file
(`f.read().split("\n")`). -/
def Cohpcar.run (contents : List String) : Option CohpcarOut :=
  obind (headerNumBonds contents) (fun nb =>
  obind (headerEfermi contents) (fun ef =>
  obind (headerSpinFlag contents) (fun sf =>
  let spin : Bool := decide (sf = 2)
  obind (dataRows contents nb) (fun rows =>
  obind (getCol rows 0) (fun energies =>
  obind (avgEntry rows nb spin) (fun avg =>
  obind (omapM (bondEntry contents rows nb spin) (intRange nb)) (fun entries =>
  some { efermi := ef, is_spin_polarized := spin, energies := energies,
         cohp_data := entries.foldl (fun acc p => dictSet acc p.1 p.2)
           (dictSet [] ("average") avg) })))))))

/-- The data lines of an ICOHPLIST file: `f.read().split("\n")[1:-1]`. -/
def summaryData (contents : List String) : List String :=
  (contents.drop 1).dropLast

/-- One iteration of the loop in `Icohplist.__init__`: columns
`[index, elem1, elem2, length, icohp, number]` of `data[bond]`, plus,
when spin-polarized, `float(data[bond + num_bonds + 1].split()[4])` as
the `Spin.down` value. -/
def summaryEntry (data : List String) (spin : Bool) (nb : Nat) (b : Nat) :
    Option (String × IcohpBond) :=
  obind (data.get? b) (fun line0 =>
  let line := pySplitWs line0
  obind (line.get? 1) (fun e1 =>
  obind (line.get? 2) (fun e2 =>
  let label := e1 ++ ("-") ++ e2
  obind (line.get? 3) (fun t3 =>
  obind (parseFloat? t3) (fun len =>
  obind (line.get? 4) (fun t4 =>
  obind (parseFloat? t4) (fun ic =>
  obind (line.get? 5) (fun t5 =>
  obind (parseInt? t5) (fun num =>
  cond spin
    (obind (data.get? (b + nb + 1)) (fun line2 =>
     obind ((pySplitWs line2).get? 4) (fun t =>
     obind (parseFloat? t) (fun down =>
     some (label, ⟨len, num, ic, some down⟩)))))
    (some (label, ⟨len, num, ic, none⟩)))))))))))

/-- `Icohplist.__init__` over the list of lines of the file
(`f.read().split("\n")`). Spin polarization is detected structurally
from the token `"distance"` in the line at the midpoint of the data. -/
def Icohplist.run (contents : List String) : Option IcohplistOut :=
  let data := summaryData contents
  obind (data.get? (data.length / 2)) (fun mid =>
  let spin : Bool := strContains mid ("distance")
  let nb : Nat := cond spin (data.length / 2) data.length
  obind (omapM (summaryEntry data spin nb) (List.range nb)) (fun entries =>
  some { is_spin_polarized := spin,
         icohplist := entries.foldl (fun acc p => dictSet acc p.1 p.2) [] }))

/-! Concrete inputs and decoded outputs used by the witness and
counterexample theorems below. -/

/-- A spin-polarized COHPCAR file with one bond. -/
def exC1file : List String :=
  ["t", "2 2 0.0", "x", "No.1:Fe1->Fe2(1.0)", "0.0 1.0 2.0 3.0 4.0 5.0 6.0 7.0 8.0"]

/-- The data matrix of `exC1file`. -/
def exC1rows : List (List ℚ) := [[0, 1, 2, 3, 4, 5, 6, 7, 8]]

/-- The decoded output of `exC1file`. -/
def exC1out : CohpcarOut :=
  { efermi := 0, is_spin_polarized := true, energies := [0],
    cohp_data :=
      [(("average"),
        { cohp_up := [1], cohp_down := some [5], icohp_up := [2],
          icohp_down := some [6], blength := none, sites := none }),
       (("Fe1-Fe2"),
        { cohp_up := [3], cohp_down := some [7], icohp_up := [4],
          icohp_down := some [8], blength := some 1, sites := some (0, 1) })] }

/-- A non-polarized COHPCAR file with one bond and two data rows. -/
def exC2file : List String :=
  ["t", "2 1 0.5", "x", "No.1:Fe1->Fe2(1.0)", "-1.0 1.0 2.0 3.0 4.0", "0.0 5.0 6.0 7.0 8.0"]

/-- The decoded output of `exC2file`. -/
def exC2out : CohpcarOut :=
  { efermi := 1 / 2, is_spin_polarized := false, energies := [-1, 0],
    cohp_data :=
      [(("average"),
        { cohp_up := [1, 5], cohp_down := none, icohp_up := [2, 6],
          icohp_down := none, blength := none, sites := none }),
       (("Fe1-Fe2"),
        { cohp_up := [3, 7], cohp_down := none, icohp_up := [4, 8],
          icohp_down := none, blength := some 1, sites := some (0, 1) })] }

/-- The bond record of `exC2out`. -/
def exC2rec : CohpBond :=
  { cohp_up := [3, 7], cohp_down := none, icohp_up := [4, 8],
    icohp_down := none, blength := some 1, sites := some (0, 1) }

/-- A spin-polarized ICOHPLIST file with one bond. -/
def exC4file : List String :=
  ["hdr", "1 Fe Fe 1.0 -2.0 1", "a distance b", "2 Fe Fe 1.0 -2.5 1", ""]

/-- The decoded output of `exC4file`. -/
def exC4out : IcohplistOut :=
  { is_spin_polarized := true,
    icohplist := [(("Fe-Fe"),
      { blength := 1, number_of_bonds := 1, icohp_up := -2, icohp_down := some (-5 / 2) })] }

/-- A non-polarized COHPCAR file with one bond. -/
def exC5file : List String :=
  ["t", "2 1 -1.5", "x", "No.1:Fe1->Fe2(1.0)", "-1.0 1.0 2.0 3.0 4.0"]

/-- The decoded output of `exC5file`. -/
def exC5out : CohpcarOut :=
  { efermi := -3 / 2, is_spin_polarized := false, energies := [-1],
    cohp_data :=
      [(("average"),
        { cohp_up := [1], cohp_down := none, icohp_up := [2],
          icohp_down := none, blength := none, sites := none }),
       (("Fe1-Fe2"),
        { cohp_up := [3], cohp_down := none, icohp_up := [4],
          icohp_down := none, blength := some 1, sites := some (0, 1) })] }

/-- A COHPCAR file whose two bond-header lines produce the same label. -/
def exC6cexfile : List String :=
  ["t", "3 1 0.0", "x", "No.1:Fe1->Fe2(1.0)", "No.2:Fe1->Fe2(2.0)",
   "-1.0 1.0 2.0 3.0 4.0 5.0 6.0"]

/-- The decoded output of `exC6cexfile`: the duplicate label collapses to
one record carrying the data of the second bond. -/
def exC6cexout : CohpcarOut :=
  { efermi := 0, is_spin_polarized := false, energies := [-1],
    cohp_data :=
      [(("average"),
        { cohp_up := [1], cohp_down := none, icohp_up := [2],
          icohp_down := none, blength := none, sites := none }),
       (("Fe1-Fe2"),
        { cohp_up := [5], cohp_down := none, icohp_up := [6],
          icohp_down := none, blength := some 2, sites := some (0, 1) })] }

/-- A COHPCAR file with two bonds and distinct labels. -/
def exC6file : List String :=
  ["t", "3 1 0.0", "x", "No.1:Fe1->Fe2(1.0)", "No.2:Fe1->Fe3(2.0)",
   "-1.0 1.0 2.0 3.0 4.0 5.0 6.0"]

/-- The decoded output of `exC6file`. -/
def exC6out : CohpcarOut :=
  { efermi := 0, is_spin_polarized := false, energies := [-1],
    cohp_data :=
      [(("average"),
        { cohp_up := [1], cohp_down := none, icohp_up := [2],
          icohp_down := none, blength := none, sites := none }),
       (("Fe1-Fe2"),
        { cohp_up := [3], cohp_down := none, icohp_up := [4],
          icohp_down := none, blength := some 1, sites := some (0, 1) }),
       (("Fe1-Fe3"),
        { cohp_up := [5], cohp_down := none, icohp_up := [6],
          icohp_down := none, blength := some 2, sites := some (0, 2) })] }

/-- A spin-polarized ICOHPLIST file whose minority-half data line has
only five whitespace-separated columns. -/
def exC8cexfile : List String :=
  ["hdr", "1 Fe Fe 1.0 -2.0 1", "x distance y", "1 Fe Fe 1.0 -2.5", ""]

/-- The decoded output of `exC8cexfile`: construction succeeds. -/
def exC8cexout : IcohplistOut :=
  { is_spin_polarized := true,
    icohplist := [(("Fe-Fe"),
      { blength := 1, number_of_bonds := 1, icohp_up := -2, icohp_down := some (-5 / 2) })] }

/-- A well-formed non-polarized ICOHPLIST file with one bond. -/
def exC8file : List String := ["hdr", "3 Fe Fe 2.0 -4.0 3", ""]

/-- The decoded output of `exC8file`. -/
def exC8out : IcohplistOut :=
  { is_spin_polarized := false,
    icohplist := [(("Fe-Fe"),
      { blength := 2, number_of_bonds := 3, icohp_up := -4, icohp_down := none })] }

/-- A non-polarized ICOHPLIST file whose two data lines carry the same
bond label. -/
def exC9file : List String := ["hdr", "1 Fe Fe 1.0 -2.0 1", "2 Fe Fe 1.5 -3.0 2", ""]

/-- The decoded output of `exC9file`: one record, from the last line. -/
def exC9out : IcohplistOut :=
  { is_spin_polarized := false,
    icohplist := [(("Fe-Fe"),
      { blength := 3 / 2, number_of_bonds := 2, icohp_up := -3, icohp_down := none })] }

/-- A COHPCAR file whose header bond-count token is `0`, making
`num_bonds = -1` so that the data slice `contents[num_bonds + 3:]`
starts at line index 2. -/
def exC10file : List String := ["t", "0 1 0.0", "1.0 2.0 3.0", "1.5 2.5 3.5"]

/-- The decoded output of `exC10file`. -/
def exC10outA : CohpcarOut :=
  { efermi := 0, is_spin_polarized := false, energies := [1, 3 / 2],
    cohp_data :=
      [(("average"),
        { cohp_up := [2, 5 / 2], cohp_down := none, icohp_up := [3, 7 / 2],
          icohp_down := none, blength := none, sites := none })] }

/-- The decoded output of `exC10file` with line index 2 replaced by
`"9.0 2.0 3.0"`. -/
def exC10outB : CohpcarOut :=
  { efermi := 0, is_spin_polarized := false, energies := [9, 3 / 2],
    cohp_data :=
      [(("average"),
        { cohp_up := [2, 5 / 2], cohp_down := none, icohp_up := [3, 7 / 2],
          icohp_down := none, blength := none, sites := none })] }

/-- A well-formed COHPCAR file (bond-count token at least 1). -/
def exC10wfile : List String :=
  ["t", "2 1 0.5", "x", "No.1:Fe1->Fe2(1.0)", "-1.0 1.0 2.0 3.0 4.0"]

/-! Basic lemmas about the option and association-list combinators. -/

theorem obind_eq_some {x : Option α} {f : α → Option β} {b : β} :
    obind x f = some b ↔ ∃ a, x = some a ∧ f a = some b := by
  cases x <;> simp [obind]

theorem omapM_length {f : α → Option β} :
    ∀ {l : List α} {r : List β}, omapM f l = some r → r.length = l.length := by
  intro l
  induction l with
  | nil => intro r h; simp [omapM] at h; simp [← h]
  | cons a as ih =>
    intro r h
    simp only [omapM, obind_eq_some] at h
    obtain ⟨b, _, bs, hbs, hr⟩ := h
    cases hr
    simp [ih hbs]

theorem omapM_get {f : α → Option β} :
    ∀ {l : List α} {r : List β} {i : Nat} {a : α}, omapM f l = some r →
      l.get? i = some a → ∃ b, f a = some b ∧ r.get? i = some b := by
  intro l
  induction l with
  | nil => intro r i a h hg; simp at hg
  | cons x xs ih =>
    intro r i a h hg
    simp only [omapM, obind_eq_some] at h
    obtain ⟨b, hb, bs, hbs, hr⟩ := h
    cases hr
    cases i with
    | zero => simp at hg; subst hg; exact ⟨b, hb, rfl⟩
    | succ j =>
      simp only [List.get?] at hg ⊢
      exact ih hbs hg

theorem omapM_mem {f : α → Option β} :
    ∀ {l : List α} {r : List β} {b : β}, omapM f l = some r →
      b ∈ r → ∃ a ∈ l, f a = some b := by
  intro l
  induction l with
  | nil => intro r b h hm; simp [omapM] at h; subst h; simp at hm
  | cons x xs ih =>
    intro r b h hm
    simp only [omapM, obind_eq_some] at h
    obtain ⟨c, hc, bs, hbs, hr⟩ := h
    cases hr
    rcases List.mem_cons.mp hm with h1 | h1
    · exact ⟨x, List.mem_cons_self _ _, h1 ▸ hc⟩
    · obtain ⟨a, ha, hfa⟩ := ih hbs h1
      exact ⟨a, List.mem_cons_of_mem _ ha, hfa⟩

theorem omapM_mem_arg {f : α → Option β} :
    ∀ {l : List α} {r : List β} {a : α}, omapM f l = some r →
      a ∈ l → ∃ b, f a = some b := by
  intro l
  induction l with
  | nil => intro r a _ hm; simp at hm
  | cons x xs ih =>
    intro r a h hm
    simp only [omapM, obind_eq_some] at h
    obtain ⟨c, hc, bs, hbs, _⟩ := h
    rcases List.mem_cons.mp hm with h1 | h1
    · exact ⟨c, h1 ▸ hc⟩
    · exact ih hbs h1

theorem omapM_congr {f g : α → Option β} :
    ∀ {l : List α}, (∀ a ∈ l, f a = g a) → omapM f l = omapM g l := by
  intro l
  induction l with
  | nil => intro _; rfl
  | cons x xs ih =>
    intro h
    simp only [omapM]
    rw [h x (List.mem_cons_self _ _), ih (fun a ha => h a (List.mem_cons_of_mem _ ha))]

theorem getCol_length {rows : List (List ℚ)} {i : Int} {c : List ℚ}
    (h : getCol rows i = some c) : c.length = rows.length := by
  simp only [getCol, obind_eq_some] at h
  obtain ⟨w, -, hc⟩ := h
  by_cases h0 : (0 : Int) ≤ (if i < 0 then i + w else i) ∧ (if i < 0 then i + w else i) < w
  · rw [if_pos h0] at hc
    cases hc
    simp
  · rw [if_neg h0] at hc
    cases hc

theorem mem_dictSet {β : Type} {d : List (String × β)} {k : String} {v : β}
    {p : String × β} (h : p ∈ dictSet d k v) : p ∈ d ∨ p = (k, v) := by
  induction d with
  | nil =>
    simp only [dictSet, List.mem_singleton] at h
    exact Or.inr h
  | cons q rest ih =>
    simp only [dictSet] at h
    split at h
    · rcases List.mem_cons.mp h with h1 | h1
      · exact Or.inr h1
      · exact Or.inl (List.mem_cons_of_mem _ h1)
    · rcases List.mem_cons.mp h with h1 | h1
      · exact Or.inl (h1 ▸ List.mem_cons_self _ _)
      · rcases ih h1 with h2 | h2
        · exact Or.inl (List.mem_cons_of_mem _ h2)
        · exact Or.inr h2

theorem mem_foldl_dictSet {β : Type} {l : List (String × β)} :
    ∀ {d : List (String × β)} {p : String × β},
      p ∈ l.foldl (fun acc q => dictSet acc q.1 q.2) d → p ∈ d ∨ p ∈ l := by
  induction l with
  | nil => intro d p h; exact Or.inl h
  | cons x xs ih =>
    intro d p h
    simp only [List.foldl_cons] at h
    rcases ih h with h1 | h1
    · rcases mem_dictSet h1 with h2 | h2
      · exact Or.inl h2
      · exact Or.inr (h2 ▸ List.mem_cons_self _ _)
    · exact Or.inr (List.mem_cons_of_mem _ h1)

theorem dictKeys_dictSet {β : Type} {d : List (String × β)} {k : String} {v : β} :
    dictKeys (dictSet d k v) =
      if k ∈ dictKeys d then dictKeys d else dictKeys d ++ [k] := by
  induction d with
  | nil => simp [dictSet, dictKeys]
  | cons q rest ih =>
    by_cases hq : q.1 = k
    · simp [dictSet, dictKeys, hq]
    · have hq' : ¬ k = q.1 := fun h => hq h.symm
      simp only [dictSet, if_neg hq, dictKeys, List.map_cons] at ih ⊢
      rw [ih]
      simp only [List.mem_cons, hq', false_or]
      split <;> simp

theorem mem_dictKeys_dictSet {β : Type} {d : List (String × β)} {k k' : String}
    {v : β} : k' ∈ dictKeys (dictSet d k v) ↔ k' ∈ dictKeys d ∨ k' = k := by
  rw [dictKeys_dictSet]
  split
  · rename_i hk
    constructor
    · exact Or.inl
    · rintro (h | rfl)
      · exact h
      · exact hk
  · simp

theorem nodup_dictKeys_dictSet {β : Type} {d : List (String × β)} {k : String}
    {v : β} (h : (dictKeys d).Nodup) : (dictKeys (dictSet d k v)).Nodup := by
  rw [dictKeys_dictSet]
  split
  · exact h
  · rename_i hk
    refine List.Nodup.append h (List.nodup_singleton k) ?_
    intro a ha hb
    rw [List.mem_singleton] at hb
    exact hk (hb ▸ ha)

theorem nodup_dictKeys_foldl {β : Type} {l : List (String × β)} :
    ∀ {d : List (String × β)}, (dictKeys d).Nodup →
      (dictKeys (l.foldl (fun acc q => dictSet acc q.1 q.2) d)).Nodup := by
  induction l with
  | nil => intro d h; exact h
  | cons x xs ih => intro d h; exact ih (nodup_dictKeys_dictSet h)

theorem mem_dictKeys_foldl_of_mem {β : Type} {l : List (String × β)} :
    ∀ {d : List (String × β)} {k : String}, k ∈ dictKeys d →
      k ∈ dictKeys (l.foldl (fun acc q => dictSet acc q.1 q.2) d) := by
  induction l with
  | nil => intro d k h; exact h
  | cons x xs ih =>
    intro d k h
    exact ih (mem_dictKeys_dictSet.mpr (Or.inl h))

theorem dictGet?_dictSet {β : Type} {d : List (String × β)} {k k' : String}
    {v : β} : dictGet? (dictSet d k v) k' =
      if k' = k then some v else dictGet? d k' := by
  induction d with
  | nil =>
    by_cases hk : k' = k
    · simp [dictSet, dictGet?, List.find?, hk]
    · have hk' : ¬ (k == k') = true := by
        simp only [beq_iff_eq]
        exact fun h => hk h.symm
      simp [dictSet, dictGet?, List.find?, hk, hk']
  | cons q rest ih =>
    by_cases hq : q.1 = k
    · by_cases hk : k' = k
      · simp [dictSet, dictGet?, List.find?, hq, hk]
      · have hk' : ¬ (k == k') = true := by
          simp only [beq_iff_eq]
          exact fun h => hk h.symm
        have hq' : ¬ (q.1 == k') = true := by
          simp only [beq_iff_eq, hq]
          exact fun h => hk h.symm
        simp [dictSet, dictGet?, List.find?, hq, hk, hk', hq']
    · by_cases hqk : q.1 = k'
      · have hk : ¬ k' = k := fun h => hq (h ▸ hqk)
        simp [dictSet, dictGet?, List.find?, hq, hqk, hk]
      · have hq2 : ¬ (q.1 == k') = true := by simp [beq_iff_eq, hqk]
        simp only [dictSet, if_neg hq, dictGet?, List.find?_cons, hq2]
        simp only [dictGet?] at ih
        simp [ih]

theorem dictGet?_foldl {β : Type} {l : List (String × β)} :
    ∀ {d : List (String × β)} {k : String},
      dictGet? (l.foldl (fun acc q => dictSet acc q.1 q.2) d) k =
        match (l.filter (fun q => q.1 == k)).getLast? with
        | some q => some q.2
        | none => dictGet? d k := by
  induction l with
  | nil => intro d k; simp
  | cons x xs ih =>
    intro d k
    simp only [List.foldl_cons]
    rw [ih]
    by_cases hx : x.1 = k
    · have hfil : (x :: xs).filter (fun q => q.1 == k) =
          x :: xs.filter (fun q => q.1 == k) := by
        simp [List.filter_cons, hx]
      rw [hfil]
      cases hlast : (xs.filter (fun q => q.1 == k)).getLast? with
      | none =>
        have hnil : xs.filter (fun q => q.1 == k) = [] := by
          cases hf : xs.filter (fun q => q.1 == k) with
          | nil => rfl
          | cons y ys =>
            rw [hf] at hlast
            simp [List.getLast?_concat, List.getLast?] at hlast
        rw [hnil]
        simp only [List.getLast?_singleton]
        rw [dictGet?_dictSet, if_pos hx.symm]
      | some q =>
        cases hf : xs.filter (fun q => q.1 == k) with
        | nil => rw [hf] at hlast; simp at hlast
        | cons y ys =>
          rw [hf] at hlast
          rw [List.getLast?_cons_cons, hlast]
    · have hfil : (x :: xs).filter (fun q => q.1 == k) =
          xs.filter (fun q => q.1 == k) := by
        simp [List.filter_cons, hx]
      rw [hfil]
      cases hlast : (xs.filter (fun q => q.1 == k)).getLast? with
      | none =>
        rw [dictGet?_dictSet, if_neg (fun h => hx h.symm)]
      | some q => rfl

theorem length_dictKeys_foldl {β : Type} {l : List (String × β)} :
    ∀ {d : List (String × β)},
      (dictKeys (l.foldl (fun acc q => dictSet acc q.1 q.2) d)).length ≤
          (dictKeys d).length + l.length ∧
        ((dictKeys (l.foldl (fun acc q => dictSet acc q.1 q.2) d)).length =
            (dictKeys d).length + l.length ↔
          (l.map Prod.fst).Nodup ∧ ∀ k ∈ l.map Prod.fst, k ∉ dictKeys d) := by
  induction l with
  | nil => intro d; simp
  | cons x xs ih =>
    intro d
    simp only [List.foldl_cons, List.map_cons, List.length_cons, List.nodup_cons]
    by_cases hx : x.1 ∈ dictKeys d
    · have hkeys : dictKeys (dictSet d x.1 x.2) = dictKeys d := by
        rw [dictKeys_dictSet, if_pos hx]
      obtain ⟨ihle, ihiff⟩ := ih (d := dictSet d x.1 x.2)
      rw [hkeys] at ihle ihiff
      constructor
      · omega
      · constructor
        · intro hlen; omega
        · rintro ⟨-, hall⟩
          exact absurd hx (hall x.1 (List.mem_cons_self _ _))
    · have hkeys : dictKeys (dictSet d x.1 x.2) = dictKeys d ++ [x.1] := by
        rw [dictKeys_dictSet, if_neg hx]
      obtain ⟨ihle, ihiff⟩ := ih (d := dictSet d x.1 x.2)
      rw [hkeys, List.length_append, List.length_singleton] at ihle ihiff
      constructor
      · omega
      · rw [show (dictKeys d).length + 1 + xs.length =
              (dictKeys d).length + (xs.length + 1) by omega] at ihiff
        rw [ihiff]
        constructor
        · rintro ⟨hnd, hall⟩
          refine ⟨⟨?_, hnd⟩, ?_⟩
          · intro hm
            have := hall x.1 hm
            rw [List.mem_append, List.mem_singleton] at this
            exact this (Or.inr rfl)
          · intro k hk
            rcases List.mem_cons.mp hk with rfl | hk2
            · exact hx
            · intro hkd
              have := hall k hk2
              rw [List.mem_append] at this
              exact this (Or.inl hkd)
        · rintro ⟨⟨hxm, hnd⟩, hall⟩
          refine ⟨hnd, ?_⟩
          intro k hk
          rw [List.mem_append, List.mem_singleton]
          rintro (hkd | rfl)
          · exact hall k (List.mem_cons_of_mem _ hk) hkd
          · exact hxm hk

theorem str_append_data (a b : String) : (a ++ b).data = a.data ++ b.data := by
  cases a
  cases b
  rfl

theorem mkLabel_ne_average (s0 : String) (i0 : Int) (s1 : String) (i1 : Int) :
    mkLabel s0 i0 s1 i1 ≠ "average" := by
  intro h
  have hd : ('-') ∈ (mkLabel s0 i0 s1 i1).data := by
    simp only [mkLabel, str_append_data]
    refine List.mem_append.mpr (Or.inl ?_)
    refine List.mem_append.mpr (Or.inl ?_)
    refine List.mem_append.mpr (Or.inr ?_)
    exact List.mem_singleton.mpr rfl
  rw [h] at hd
  exact absurd hd (by decide)

theorem get_bond_data_label_ne {line : String} {r : String × ℚ × (Int × Int)}
    (h : Cohpcar.get_bond_data line = some r) : r.1 ≠ "average" := by
  simp only [Cohpcar.get_bond_data, obind_eq_some] at h
  obtain ⟨lp, -, len, -, h0, -, idx, -, specs, -, i0, -, i1, -, s0, -, s1, -, hr⟩ := h
  cases hr
  exact mkLabel_ne_average _ _ _ _

theorem bondEntry_label_ne {contents : List String} {rows : List (List ℚ)}
    {nb : Int} {spin : Bool} {bond : Nat} {p : String × CohpBond}
    (h : bondEntry contents rows nb spin bond = some p) : p.1 ≠ "average" := by
  simp only [bondEntry, obind_eq_some] at h
  obtain ⟨hline, -, bd, hbd, cu, -, iu, -, hrest⟩ := h
  have hne := get_bond_data_label_ne hbd
  cases spin
  · simp only [cond_false] at hrest
    cases hrest
    exact hne
  · simp only [cond_true, obind_eq_some] at hrest
    obtain ⟨cd, -, idn, -, hp⟩ := hrest
    cases hp
    exact hne

theorem omapM_isSome_iff {f : α → Option β} :
    ∀ {l : List α}, (omapM f l).isSome ↔ ∀ a ∈ l, (f a).isSome := by
  intro l
  induction l with
  | nil => simp [omapM]
  | cons x xs ih =>
    simp only [omapM]
    cases hx : f x with
    | none => simp [obind, hx]
    | some b =>
      cases hxs : omapM f xs with
      | none =>
        rw [hxs] at ih
        simp only [obind, hx, hxs]
        simp only [Option.isSome_none, Bool.false_eq_true, false_iff] at ih ⊢
        intro hall
        exact ih (fun a ha => hall a (List.mem_cons_of_mem _ ha))
      | some bs =>
        rw [hxs] at ih
        simp only [obind, hx, hxs]
        simp only [Option.isSome_some, true_iff] at ih
        simp only [Option.isSome_some, true_iff]
        intro a ha
        rcases List.mem_cons.mp ha with rfl | ha2
        · simp [hx]
        · exact ih a ha2

theorem splitOnFuel_ne_nil {sep : List Char} :
    ∀ {fuel : Nat} {cs : List Char}, splitOnFuel sep fuel cs ≠ [] := by
  intro fuel cs
  cases fuel with
  | zero => simp [splitOnFuel]
  | succ n =>
    simp only [splitOnFuel]
    cases findSplitAux sep cs with
    | none => simp
    | some pr => simp

theorem pySplitOn_ne_nil (s sep : String) : pySplitOn s sep ≠ [] := by
  simp only [pySplitOn, ne_eq, List.map_eq_nil_iff]
  exact splitOnFuel_ne_nil

theorem splitRunsFuel_ne_nil {p : Char → Bool} :
    ∀ {fuel : Nat} {cs : List Char}, splitRunsFuel p fuel cs ≠ [] := by
  intro fuel cs
  cases fuel with
  | zero => simp [splitRunsFuel]
  | succ n =>
    simp only [splitRunsFuel]
    cases cs.dropWhile (fun c => !(p c)) with
    | nil => simp
    | cons a tail => simp

theorem siteSpecies?_isSome (s : String) : (siteSpecies? s).isSome := by
  simp only [siteSpecies?, reSplitDigit, reSplit, splitRuns]
  cases hs : splitRunsFuel Char.isDigit (s.toList.length + 1) s.toList with
  | nil => exact absurd hs splitRunsFuel_ne_nil
  | cons a tail => simp [hs]

theorem pyGet?_zero {l : List α} {a : α} :
    pyGet? l 0 = some a ↔ l.get? 0 = some a := by
  simp [pyGet?]

theorem pyGet?_last_isSome {l : List α} (h : l ≠ []) : (pyGet? l (-1)).isSome := by
  have hlen : 1 ≤ l.length := List.length_pos.mpr h
  simp only [pyGet?]
  rw [if_pos (by omega : (-1 : Int) < 0), if_pos (by omega : (0:Int) ≤ -1 + l.length)]
  have : (-1 + (l.length : Int)).toNat < l.length := by omega
  rw [Option.isSome_iff_ne_none]
  intro hnone
  rw [List.get?_eq_none] at hnone
  omega

theorem bondPathText_eq {line h0 : String}
    (hh0 : pyGet? (pySplitOn line ("(")) 0 = some h0) : bondPathText line = h0 := by
  rw [pyGet?_zero] at hh0
  cases hl : pySplitOn line ("(") with
  | nil => rw [hl] at hh0; simp at hh0
  | cons a tail =>
    rw [hl] at hh0
    simp only [List.get?] at hh0
    cases hh0
    simp [bondPathText, hl]

theorem cohpcarRun_elim {contents : List String} {out : CohpcarOut}
    (h : Cohpcar.run contents = some out) :
    ∃ nb ef sf rows energies avg entries,
      headerNumBonds contents = some nb ∧
      headerEfermi contents = some ef ∧
      headerSpinFlag contents = some sf ∧
      dataRows contents nb = some rows ∧
      getCol rows 0 = some energies ∧
      avgEntry rows nb (decide (sf = 2)) = some avg ∧
      omapM (bondEntry contents rows nb (decide (sf = 2))) (intRange nb) = some entries ∧
      out = { efermi := ef, is_spin_polarized := decide (sf = 2), energies := energies,
              cohp_data := entries.foldl (fun acc p => dictSet acc p.1 p.2)
                (dictSet [] ("average") avg) } := by
  simp only [Cohpcar.run, obind_eq_some] at h
  obtain ⟨nb, h1, ef, h2, sf, h3, rows, h4, energies, h5, avg, h6, entries, h7, h8⟩ := h
  exact ⟨nb, ef, sf, rows, energies, avg, entries, h1, h2, h3, h4, h5, h6, h7,
    (Option.some_inj.mp h8).symm⟩

theorem icohplistRun_elim {contents : List String} {out : IcohplistOut}
    (h : Icohplist.run contents = some out) :
    ∃ mid entries,
      (summaryData contents).get? ((summaryData contents).length / 2) = some mid ∧
      omapM (summaryEntry (summaryData contents) (strContains mid ("distance"))
          (cond (strContains mid ("distance")) ((summaryData contents).length / 2)
            (summaryData contents).length))
        (List.range (cond (strContains mid ("distance"))
          ((summaryData contents).length / 2) (summaryData contents).length)) =
        some entries ∧
      out = { is_spin_polarized := strContains mid ("distance"),
              icohplist := entries.foldl (fun acc p => dictSet acc p.1 p.2) [] } := by
  simp only [Icohplist.run, obind_eq_some] at h
  obtain ⟨mid, h1, entries, h2, h3⟩ := h
  exact ⟨mid, entries, h1, h2, (Option.some_inj.mp h3).symm⟩

theorem bondEntry_elim {contents : List String} {rows : List (List ℚ)} {nb : Int}
    {spin : Bool} {bond : Nat} {p : String × CohpBond}
    (h : bondEntry contents rows nb spin bond = some p) :
    ∃ hline bd cu iu,
      pyGet? contents (3 + (bond : Int)) = some hline ∧
      Cohpcar.get_bond_data hline = some bd ∧
      getCol rows (2 * ((bond : Int) + 0 * (nb + 1)) + 3) = some cu ∧
      getCol rows (2 * ((bond : Int) + 0 * (nb + 1)) + 4) = some iu ∧
      ((spin = true ∧ ∃ cd idn,
          getCol rows (2 * ((bond : Int) + 1 * (nb + 1)) + 3) = some cd ∧
          getCol rows (2 * ((bond : Int) + 1 * (nb + 1)) + 4) = some idn ∧
          p = (bd.1, ⟨cu, some cd, iu, some idn, some bd.2.1, some bd.2.2⟩)) ∨
        (spin = false ∧ p = (bd.1, ⟨cu, none, iu, none, some bd.2.1, some bd.2.2⟩))) := by
  simp only [bondEntry, obind_eq_some] at h
  obtain ⟨hline, h1, bd, h2, cu, h3, iu, h4, hrest⟩ := h
  refine ⟨hline, bd, cu, iu, h1, h2, h3, h4, ?_⟩
  cases spin
  · simp only [cond_false] at hrest
    exact Or.inr ⟨rfl, (Option.some_inj.mp hrest).symm⟩
  · simp only [cond_true, obind_eq_some] at hrest
    obtain ⟨cd, hcd, idn, hidn, hp⟩ := hrest
    exact Or.inl ⟨rfl, cd, idn, hcd, hidn, (Option.some_inj.mp hp).symm⟩

theorem avgEntry_elim {rows : List (List ℚ)} {nb : Int} {spin : Bool} {avg : CohpBond}
    (h : avgEntry rows nb spin = some avg) :
    ∃ cu iu,
      getCol rows (1 + 2 * 0 * (nb + 1)) = some cu ∧
      getCol rows (2 + 2 * 0 * (nb + 1)) = some iu ∧
      ((spin = true ∧ ∃ cd idn,
          getCol rows (1 + 2 * 1 * (nb + 1)) = some cd ∧
          getCol rows (2 + 2 * 1 * (nb + 1)) = some idn ∧
          avg = ⟨cu, some cd, iu, some idn, none, none⟩) ∨
        (spin = false ∧ avg = ⟨cu, none, iu, none, none, none⟩)) := by
  simp only [avgEntry, obind_eq_some] at h
  obtain ⟨cu, h1, iu, h2, hrest⟩ := h
  refine ⟨cu, iu, h1, h2, ?_⟩
  cases spin
  · simp only [cond_false] at hrest
    exact Or.inr ⟨rfl, (Option.some_inj.mp hrest).symm⟩
  · simp only [cond_true, obind_eq_some] at hrest
    obtain ⟨cd, hcd, idn, hidn, hp⟩ := hrest
    exact Or.inl ⟨rfl, cd, idn, hcd, hidn, (Option.some_inj.mp hp).symm⟩

theorem summaryEntry_elim {data : List String} {spin : Bool} {nb b : Nat}
    {p : String × IcohpBond} (h : summaryEntry data spin nb b = some p) :
    ∃ line0 e1 e2 t3 len t4 ic t5 num,
      data.get? b = some line0 ∧
      (pySplitWs line0).get? 1 = some e1 ∧
      (pySplitWs line0).get? 2 = some e2 ∧
      (pySplitWs line0).get? 3 = some t3 ∧
      parseFloat? t3 = some len ∧
      (pySplitWs line0).get? 4 = some t4 ∧
      parseFloat? t4 = some ic ∧
      (pySplitWs line0).get? 5 = some t5 ∧
      parseInt? t5 = some num ∧
      ((spin = true ∧ ∃ line2 t down,
          data.get? (b + nb + 1) = some line2 ∧
          (pySplitWs line2).get? 4 = some t ∧
          parseFloat? t = some down ∧
          p = (e1 ++ ("-") ++ e2, ⟨len, num, ic, some down⟩)) ∨
        (spin = false ∧ p = (e1 ++ ("-") ++ e2, ⟨len, num, ic, none⟩))) := by
  simp only [summaryEntry, obind_eq_some] at h
  obtain ⟨line0, h1, e1, h2, e2, h3, t3, h4, len, h5, t4, h6, ic, h7, t5, h8, num, h9,
    hrest⟩ := h
  refine ⟨line0, e1, e2, t3, len, t4, ic, t5, num, h1, h2, h3, h4, h5, h6, h7, h8, h9, ?_⟩
  cases spin
  · simp only [cond_false] at hrest
    exact Or.inr ⟨rfl, (Option.some_inj.mp hrest).symm⟩
  · simp only [cond_true, obind_eq_some] at hrest
    obtain ⟨line2, ha, t, hb, down, hc, hp⟩ := hrest
    exact Or.inl ⟨rfl, line2, t, down, ha, hb, hc, (Option.some_inj.mp hp).symm⟩

/-! Claim theorems. Concrete evaluations below use `decide`; the rational
operations are made semireducible so that the elaborator can evaluate
them (the kernel always could). -/

attribute [local semireducible] Rat.add Rat.mul Rat.inv Rat.sub

/-- C3: decoding the bond-header line `No.4:Fe1->Fe9(2.4524893531900283)`
yields exactly the label `Fe1-Fe9`, the length `2.4524893531900283`
(exact, as the rational 24524893531900283 / 10^16), and the zero-based
site-index pair `(0, 8)`. -/
theorem c3_bond_header_round_trip :
    Cohpcar.get_bond_data ("No.4:Fe1->Fe9(2.4524893531900283)") =
      some (("Fe1-Fe9"), (24524893531900283 : ℚ) / 10000000000000000, (0, 8)) := by
  decide

/-- C7 (counterexample): the claim says a header line with more than two
colon-delimited site tokens after the tag must fail, but the parser keeps
only the first two tokens (`[1:3]` slice) and accepts this line with
three site tokens. -/
theorem c7_counterexample :
    (siteTokens ("No.1:Fe1->Fe2->Fe3(1.0)")).length = 3 ∧
      Cohpcar.get_bond_data ("No.1:Fe1->Fe2->Fe3(1.0)") =
        some (("Fe1-Fe2"), 1, (0, 1)) := by
  decide

/-- C7 (amended): the bond-header parser fails if and only if the text
after the last `(` with its final character dropped does not parse as a
float, or fewer than two colon-delimited site tokens follow the tag
segment, or one of the first two site tokens has no parsable digit
index. Site tokens beyond the first two are ignored, not rejected. -/
theorem c7_amended (line : String) :
    (Cohpcar.get_bond_data line).isSome = true ↔
      ((∃ lp, pyGet? (pySplitOn line ("(")) (-1) = some lp ∧
          (parseFloat? (strDropLast lp)).isSome = true) ∧
        2 ≤ (siteTokens line).length ∧
        ∀ st ∈ (siteTokens line).take 2, (siteIndex? st).isSome = true) := by
  have hne := pySplitOn_ne_nil line ("(")
  obtain ⟨lp, hlp⟩ := Option.isSome_iff_exists.mp (pyGet?_last_isSome hne)
  obtain ⟨h0, hh0⟩ : ∃ h0, pyGet? (pySplitOn line ("(")) 0 = some h0 := by
    cases hl : pySplitOn line ("(") with
    | nil => exact absurd hl hne
    | cons a tail => exact ⟨a, by simp [pyGet?, hl]⟩
  have hbp := bondPathText_eq hh0
  have hsites : ((pySplitOn (replaceStr h0 ("->") (":")) (":")).drop 1).take 2 =
      (siteTokens line).take 2 := by
    rw [siteTokens, hbp]
  simp only [Cohpcar.get_bond_data, hlp, hh0, obind, hsites]
  cases hpf : parseFloat? (strDropLast lp) with
  | none =>
    simp only [obind, Option.isSome_none, Bool.false_eq_true, false_iff]
    rintro ⟨⟨lp2, hlp2, hpf2⟩, -, -⟩
    obtain rfl := Option.some_inj.mp hlp2
    rw [hpf] at hpf2
    simp at hpf2
  | some len =>
    have hA : ∃ lp2, pyGet? (pySplitOn line ("(")) (-1) = some lp2 ∧
        (parseFloat? (strDropLast lp2)).isSome = true :=
      ⟨lp, hlp, by simp [hpf]⟩
    simp only [obind, hA, true_and]
    by_cases hlen : 2 ≤ (siteTokens line).length
    · cases hidx : omapM siteIndex? ((siteTokens line).take 2) with
      | none =>
        have hnall : ¬ ∀ st ∈ (siteTokens line).take 2, (siteIndex? st).isSome = true := by
          rw [← omapM_isSome_iff]
          simp [hidx]
        simp [obind, hlen, hnall]
      | some idx =>
        have hidxlen : idx.length = 2 := by
          have h1 := omapM_length hidx
          rw [List.length_take] at h1
          omega
        have hspec : (omapM siteSpecies? ((siteTokens line).take 2)).isSome = true := by
          rw [omapM_isSome_iff]
          intro a ha
          exact siteSpecies?_isSome a
        obtain ⟨specs, hspecs⟩ := Option.isSome_iff_exists.mp hspec
        have hspeclen : specs.length = 2 := by
          have h1 := omapM_length hspecs
          rw [List.length_take] at h1
          omega
        match idx, hidxlen with
        | [i0, i1], _ =>
          match specs, hspeclen with
          | [s0, s1], _ =>
            have hall : ∀ st ∈ (siteTokens line).take 2, (siteIndex? st).isSome = true := by
              rw [← omapM_isSome_iff]
              simp [hidx]
            simp only [obind, hspecs, hidx, List.get?, Option.isSome_some, true_iff]
            simp [hlen, hall]
            exact ⟨by simp [hpf], hall⟩
    · cases hidx : omapM siteIndex? ((siteTokens line).take 2) with
      | none => simp [obind, hlen]
      | some idx =>
        have hidxlen : idx.length ≤ 1 := by
          have h1 := omapM_length hidx
          rw [List.length_take] at h1
          omega
        have h1 : idx.get? 1 = none := List.get?_eq_none.mpr (by omega)
        cases hspec : omapM siteSpecies? ((siteTokens line).take 2) with
        | none => simp [obind, hlen]
        | some specs =>
          cases hg0 : idx.get? 0 with
          | none =>
            simp only [obind, hg0]
            simp [hlen]
          | some i0 =>
            simp only [obind, hg0, h1]
            simp [hlen]

theorem list_get?_set_ne {l : List α} {i j : Nat} {a : α} (h : i ≠ j) :
    (l.set i a).get? j = l.get? j := by
  induction l generalizing i j with
  | nil => simp
  | cons b bs ih =>
    cases i with
    | zero =>
      cases j with
      | zero => exact absurd rfl h
      | succ j2 => simp [List.set]
    | succ i2 =>
      cases j with
      | zero => simp [List.set]
      | succ j2 => simpa [List.set] using ih (by omega)

theorem list_drop_set_of_lt {l : List α} {i k : Nat} {a : α} (h : i < k) :
    (l.set i a).drop k = l.drop k := by
  induction l generalizing i k with
  | nil => simp
  | cons b bs ih =>
    cases i with
    | zero =>
      cases k with
      | zero => omega
      | succ k2 => simp [List.set]
    | succ i2 =>
      cases k with
      | zero => omega
      | succ k2 => simpa [List.set] using ih (by omega)

theorem pyGet?_set_ne {l : List α} {i : Nat} {j : Int} {a : α}
    (hj : 0 ≤ j) (h : (i : Int) ≠ j) : pyGet? (l.set i a) j = pyGet? l j := by
  simp only [pyGet?, List.length_set]
  rw [if_neg (by omega : ¬ j < 0), if_pos hj, if_pos hj]
  exact list_get?_set_ne (show i ≠ j.toNat by omega)

theorem pySliceFrom_set_of_lt {l : List α} {i : Nat} {k : Int} {a : α}
    (hk : (i : Int) < k) : pySliceFrom (l.set i a) k = pySliceFrom l k := by
  simp only [pySliceFrom, List.length_set]
  rw [if_neg (by omega : ¬ k < 0), if_neg (by omega : ¬ k < 0)]
  exact list_drop_set_of_lt (by omega)

theorem obind_congr {x : Option α} {f g : α → Option β} (h : ∀ a, f a = g a) :
    obind x f = obind x g := by
  cases x <;> simp [obind, h]

theorem filter_ne_length_of_nodup {l : List String} {a : String}
    (hnd : l.Nodup) (ha : a ∈ l) :
    (l.filter (fun k => k ≠ a)).length + 1 = l.length := by
  induction l with
  | nil => simp at ha
  | cons x xs ih =>
    obtain ⟨hx1, hx2⟩ := List.nodup_cons.mp hnd
    rcases List.mem_cons.mp ha with rfl | ha2
    · have heq : xs.filter (fun k => k ≠ a) = xs := by
        rw [List.filter_eq_self]
        intro b hb
        simp only [ne_eq, decide_eq_true_eq]
        intro hba
        exact hx1 (hba ▸ hb)
      rw [List.filter_cons, if_neg (by simp), heq]
      simp
    · have hxna : x ≠ a := fun h => hx1 (h ▸ ha2)
      have hrec := ih hx2 ha2
      have hfil : (x :: xs).filter (fun k => k ≠ a) = x :: xs.filter (fun k => k ≠ a) := by
        simp [List.filter_cons, hxna]
      rw [hfil, List.length_cons, List.length_cons]
      omega

/-- C2: for every successfully decoded curve file, every record in the
output mapping (the synthetic average included) has instantaneous and
cumulative sequences of exactly the energy-grid length in every spin
channel present, and the spin channels present (the optional
minority-channel fields) are the same for every record: present exactly
when the file is spin-polarized. -/
theorem c2_lengths_and_channels {contents : List String} {out : CohpcarOut}
    (hrun : Cohpcar.run contents = some out) :
    ∀ lbl rec, (lbl, rec) ∈ out.cohp_data →
      rec.cohp_up.length = out.energies.length ∧
      rec.icohp_up.length = out.energies.length ∧
      rec.cohp_down.isSome = out.is_spin_polarized ∧
      rec.icohp_down.isSome = out.is_spin_polarized ∧
      (∀ cd, rec.cohp_down = some cd → cd.length = out.energies.length) ∧
      (∀ cd, rec.icohp_down = some cd → cd.length = out.energies.length) := by
  obtain ⟨nb, ef, sf, rows, energies, avg, entries, h1, h2, h3, h4, h5, h6, h7, h8⟩ :=
    cohpcarRun_elim hrun
  subst h8
  intro lbl rec hmem
  have hel : energies.length = rows.length := getCol_length h5
  dsimp only at hmem ⊢
  rcases mem_foldl_dictSet hmem with hmem1 | hmem1
  · obtain ⟨rfl, rfl⟩ : lbl = ("average") ∧ rec = avg := by
      simpa [dictSet, Prod.ext_iff] using hmem1
    obtain ⟨cu, iu, hcu, hiu, hd⟩ := avgEntry_elim h6
    rcases hd with ⟨hspin, cd, idn, hcd, hidn, rfl⟩ | ⟨hspin, rfl⟩
    · rw [hspin]
      refine ⟨by rw [getCol_length hcu, hel], by rw [getCol_length hiu, hel], rfl, rfl,
        ?_, ?_⟩
      · intro cd2 hcd2
        cases hcd2
        rw [getCol_length hcd, hel]
      · intro cd2 hcd2
        cases hcd2
        rw [getCol_length hidn, hel]
    · rw [hspin]
      exact ⟨by rw [getCol_length hcu, hel], by rw [getCol_length hiu, hel], rfl, rfl,
        (by intro cd2 hcd2; cases hcd2), (by intro cd2 hcd2; cases hcd2)⟩
  · obtain ⟨b, hb, hbe⟩ := omapM_mem h7 hmem1
    obtain ⟨hline, bd, cu, iu, hhl, hbd, hcu, hiu, hd⟩ := bondEntry_elim hbe
    rcases hd with ⟨hspin, cd, idn, hcd, hidn, hp⟩ | ⟨hspin, hp⟩
    · obtain ⟨rfl, rfl⟩ := Prod.ext_iff.mp hp
      rw [hspin]
      refine ⟨by rw [getCol_length hcu, hel], by rw [getCol_length hiu, hel], rfl, rfl,
        ?_, ?_⟩
      · intro cd2 hcd2
        cases hcd2
        rw [getCol_length hcd, hel]
      · intro cd2 hcd2
        cases hcd2
        rw [getCol_length hidn, hel]
    · obtain ⟨rfl, rfl⟩ := Prod.ext_iff.mp hp
      rw [hspin]
      exact ⟨by rw [getCol_length hcu, hel], by rw [getCol_length hiu, hel], rfl, rfl,
        (by intro cd2 hcd2; cases hcd2), (by intro cd2 hcd2; cases hcd2)⟩

/-- C2 (witness): the lengths and channel shape of the bond record of
`exC2file`, obtained from `c2_lengths_and_channels`. -/
theorem c2_witness :
    exC2rec.cohp_up.length = exC2out.energies.length ∧
      exC2rec.icohp_up.length = exC2out.energies.length ∧
      exC2rec.cohp_down.isSome = exC2out.is_spin_polarized ∧
      exC2rec.icohp_down.isSome = exC2out.is_spin_polarized ∧
      (∀ cd, exC2rec.cohp_down = some cd → cd.length = exC2out.energies.length) ∧
      (∀ cd, exC2rec.icohp_down = some cd → cd.length = exC2out.energies.length) :=
  @c2_lengths_and_channels exC2file exC2out (by decide) ("Fe1-Fe2") exC2rec (by decide)

/-- C5: for every successfully decoded curve file, the whitespace tokens
of line 2 (0-indexed line 1) determine the decode: the bond count is the
first token parsed as an integer minus 1, the file is spin-polarized
exactly when the second token parses to the integer 2, and the recorded
Fermi energy is the last token parsed as a real number. -/
theorem c5_parameter_line {contents : List String} {out : CohpcarOut}
    (hrun : Cohpcar.run contents = some out) :
    ∃ pline t0 n t1 s te e,
      pyGet? contents 1 = some pline ∧
      (pySplitWs pline).get? 0 = some t0 ∧
      parseInt? t0 = some n ∧
      (pySplitWs pline).get? 1 = some t1 ∧
      parseInt? t1 = some s ∧
      pyGet? (pySplitWs pline) (-1) = some te ∧
      parseFloat? te = some e ∧
      headerNumBonds contents = some (n - 1) ∧
      (out.is_spin_polarized = true ↔ s = 2) ∧
      out.efermi = e := by
  obtain ⟨nb, ef, sf, rows, energies, avg, entries, h1, h2, h3, h4, h5, h6, h7, h8⟩ :=
    cohpcarRun_elim hrun
  subst h8
  have hnb0 := h1
  simp only [headerNumBonds, headerParams, obind_eq_some] at h1
  obtain ⟨ps, ⟨pline, hpl, hps⟩, t0, ht0, n, hn, hnb⟩ := h1
  obtain rfl := Option.some_inj.mp hps
  obtain rfl := Option.some_inj.mp hnb
  simp only [headerEfermi, headerParams, obind_eq_some] at h2
  obtain ⟨ps2, ⟨pline2, hpl2, hps2⟩, hte⟩ := h2
  rw [hpl] at hpl2
  obtain rfl := Option.some_inj.mp hpl2
  obtain rfl := Option.some_inj.mp hps2
  simp only [headerSpinFlag, headerParams, obind_eq_some] at h3
  obtain ⟨ps3, ⟨pline3, hpl3, hps3⟩, t1, ht1, hs⟩ := h3
  rw [hpl] at hpl3
  obtain rfl := Option.some_inj.mp hpl3
  obtain rfl := Option.some_inj.mp hps3
  obtain ⟨te, hte1, hte2⟩ := hte
  refine ⟨pline, t0, n, t1, sf, te, ef, hpl, ht0, hn, ht1, hs, hte1, hte2, hnb0, ?_, rfl⟩
  exact decide_eq_true_iff

/-- C5 (witness): the parameter-line facts for `exC5file`, obtained from
`c5_parameter_line`. -/
theorem c5_witness :
    ∃ pline t0 n t1 s te e,
      pyGet? exC5file 1 = some pline ∧
      (pySplitWs pline).get? 0 = some t0 ∧
      parseInt? t0 = some n ∧
      (pySplitWs pline).get? 1 = some t1 ∧
      parseInt? t1 = some s ∧
      pyGet? (pySplitWs pline) (-1) = some te ∧
      parseFloat? te = some e ∧
      headerNumBonds exC5file = some (n - 1) ∧
      (exC5out.is_spin_polarized = true ↔ s = 2) ∧
      exC5out.efermi = e :=
  @c5_parameter_line exC5file exC5out (by decide)

/-- C6 (counterexample): two bond-header lines with the same label
collapse into a single dict record, so the set of non-average keys has
size 1 although the header declares 2 bonds; the claim that the key-set
size always equals the header bond count is false. -/
theorem c6_counterexample :
    Cohpcar.run exC6cexfile = some exC6cexout ∧
      headerNumBonds exC6cexfile = some 2 ∧
      ((dictKeys exC6cexout.cohp_data).filter (fun k => k ≠ ("average"))).length = 1 := by
  decide

/-- C6 (amended): for every successfully decoded curve file, the output
mapping contains the key `"average"`, its keys are distinct, no bond
label equals `"average"`, and the set of non-average keys has size at
most the header bond count, with equality exactly when the decoded bond
labels are pairwise distinct. -/
theorem c6_amended {contents : List String} {out : CohpcarOut} {nb : Int}
    (hrun : Cohpcar.run contents = some out)
    (hnb : headerNumBonds contents = some nb) :
    ("average") ∈ dictKeys out.cohp_data ∧
      (dictKeys out.cohp_data).Nodup ∧
      ∃ sf rows entries,
        headerSpinFlag contents = some sf ∧
        dataRows contents nb = some rows ∧
        omapM (bondEntry contents rows nb (decide (sf = 2))) (intRange nb) = some entries ∧
        (∀ lbl ∈ entries.map Prod.fst, lbl ≠ ("average")) ∧
        ((dictKeys out.cohp_data).filter (fun k => k ≠ ("average"))).length ≤ nb.toNat ∧
        (((dictKeys out.cohp_data).filter (fun k => k ≠ ("average"))).length = nb.toNat ↔
          (entries.map Prod.fst).Nodup) := by
  obtain ⟨nb2, ef, sf, rows, energies, avg, entries, h1, h2, h3, h4, h5, h6, h7, h8⟩ :=
    cohpcarRun_elim hrun
  rw [hnb] at h1
  obtain rfl := Option.some_inj.mp h1
  subst h8
  dsimp only
  have hinit_mem : ("average") ∈ dictKeys (dictSet [] ("average") avg) := by
    simp [dictSet, dictKeys]
  have hinit_nodup : (dictKeys (dictSet [] ("average") avg)).Nodup := by
    simp [dictSet, dictKeys]
  have h_mem := mem_dictKeys_foldl_of_mem (l := entries) hinit_mem
  have h_nodup := nodup_dictKeys_foldl (l := entries) hinit_nodup
  have hlblne : ∀ lbl ∈ entries.map Prod.fst, lbl ≠ ("average") := by
    intro lbl hl
    obtain ⟨p, hp, rfl⟩ := List.mem_map.mp hl
    obtain ⟨b, hb, hbe⟩ := omapM_mem h7 hp
    exact bondEntry_label_ne hbe
  have hcond : ∀ k ∈ entries.map Prod.fst, k ∉ dictKeys (dictSet [] ("average") avg) := by
    intro k hk
    have hne := hlblne k hk
    simp [dictSet, dictKeys, hne]
  obtain ⟨hle, hiff⟩ := length_dictKeys_foldl (l := entries) (d := dictSet [] ("average") avg)
  have hinit_len : (dictKeys (dictSet [] ("average") avg)).length = 1 := by
    simp [dictSet, dictKeys]
  rw [hinit_len] at hle hiff
  have hiff2 := hiff.trans (and_iff_left hcond)
  have hentlen : entries.length = nb.toNat := by
    rw [omapM_length h7, intRange, List.length_range]
  have hfl := filter_ne_length_of_nodup h_nodup h_mem
  refine ⟨h_mem, h_nodup, sf, rows, entries, h3, h4, h7, hlblne, by omega, ?_⟩
  rw [← hiff2]
  omega

/-- C6 (amended, witness): the amended claim instantiated at `exC6file`,
a file with two distinct bond labels. -/
theorem c6_witness :
    ("average") ∈ dictKeys exC6out.cohp_data ∧
      (dictKeys exC6out.cohp_data).Nodup ∧
      ∃ sf rows entries,
        headerSpinFlag exC6file = some sf ∧
        dataRows exC6file 2 = some rows ∧
        omapM (bondEntry exC6file rows 2 (decide (sf = 2))) (intRange 2) = some entries ∧
        (∀ lbl ∈ entries.map Prod.fst, lbl ≠ ("average")) ∧
        ((dictKeys exC6out.cohp_data).filter (fun k => k ≠ ("average"))).length ≤
          (2 : Int).toNat ∧
        (((dictKeys exC6out.cohp_data).filter (fun k => k ≠ ("average"))).length =
            (2 : Int).toNat ↔ (entries.map Prod.fst).Nodup) :=
  @c6_amended exC6file exC6out 2 (by decide) (by decide)

/-- C9: for every successfully decoded summary file, the record stored
under a key is the one produced by the last data line with that label
(later lines overwrite earlier ones), the number of records is at most
the number of bonds, and it equals the number of bonds exactly when the
labels are pairwise distinct. -/
theorem c9_duplicate_labels {contents : List String} {out : IcohplistOut}
    (hrun : Icohplist.run contents = some out) :
    ∃ mid nb entries,
      (summaryData contents).get? ((summaryData contents).length / 2) = some mid ∧
      nb = cond (strContains mid ("distance")) ((summaryData contents).length / 2)
        (summaryData contents).length ∧
      omapM (summaryEntry (summaryData contents) (strContains mid ("distance")) nb)
        (List.range nb) = some entries ∧
      (∀ k, dictGet? out.icohplist k =
        ((entries.filter (fun p => p.1 == k)).getLast?).map Prod.snd) ∧
      out.icohplist.length ≤ nb ∧
      (out.icohplist.length = nb ↔ (entries.map Prod.fst).Nodup) := by
  obtain ⟨mid, entries, h1, h2, h3⟩ := icohplistRun_elim hrun
  subst h3
  dsimp only
  have hent : entries.length = cond (strContains mid ("distance"))
      ((summaryData contents).length / 2) (summaryData contents).length := by
    rw [omapM_length h2, List.length_range]
  obtain ⟨hle, hiff⟩ :=
    length_dictKeys_foldl (l := entries) (d := ([] : List (String × IcohpBond)))
  have h0 : (dictKeys ([] : List (String × IcohpBond))).length = 0 := rfl
  have hlen_eq : (dictKeys (entries.foldl (fun acc p => dictSet acc p.1 p.2) [])).length =
      (entries.foldl (fun acc p => dictSet acc p.1 p.2) []).length := by
    simp [dictKeys]
  have hiff2 : (dictKeys (entries.foldl (fun acc p => dictSet acc p.1 p.2) [])).length =
      entries.length ↔ (entries.map Prod.fst).Nodup := by
    rw [h0, Nat.zero_add] at hiff
    rw [hiff]
    refine and_iff_left ?_
    intro k hk
    simp [dictKeys]
  refine ⟨mid, _, entries, h1, rfl, h2, ?_, by omega, ?_⟩
  · intro k
    rw [dictGet?_foldl (l := entries) (d := ([] : List (String × IcohpBond))) (k := k)]
    cases hl : (entries.filter (fun p => p.1 == k)).getLast? with
    | none => simp [dictGet?]
    | some q => simp
  · constructor
    · intro h
      exact hiff2.mp (by omega)
    · intro h
      have := hiff2.mpr h
      omega

/-- C9 (witness): the duplicate-label behaviour instantiated at
`exC9file`, whose two data lines both carry the label `Fe-Fe`: the
single record holds the second line's values. -/
theorem c9_witness :
    ∃ mid nb entries,
      (summaryData exC9file).get? ((summaryData exC9file).length / 2) = some mid ∧
      nb = cond (strContains mid ("distance")) ((summaryData exC9file).length / 2)
        (summaryData exC9file).length ∧
      omapM (summaryEntry (summaryData exC9file) (strContains mid ("distance")) nb)
        (List.range nb) = some entries ∧
      (∀ k, dictGet? exC9out.icohplist k =
        ((entries.filter (fun p => p.1 == k)).getLast?).map Prod.snd) ∧
      exC9out.icohplist.length ≤ nb ∧
      (exC9out.icohplist.length = nb ↔ (entries.map Prod.fst).Nodup) :=
  @c9_duplicate_labels exC9file exC9out (by decide)

/-- C4: summary-decoder spin detection is structural and symmetric: if
the line at the exact midpoint of the stripped data lines contains the
token `distance`, the polarized flag is set, the successful decode
forces the data to consist of two equal halves of `num_bonds` lines
around that midpoint line, and each bond's minority-channel value is
parsed from column 5 (0-indexed column 4) of line `b + num_bonds + 1`;
if the midpoint line lacks the token, the flag is false regardless of
the parity of the line count. -/
theorem c4_spin_detection {contents : List String} {out : IcohplistOut} {mid : String}
    (hrun : Icohplist.run contents = some out)
    (hmid : (summaryData contents).get? ((summaryData contents).length / 2) = some mid) :
    (strContains mid ("distance") = true →
      out.is_spin_polarized = true ∧
      (summaryData contents).length = 2 * ((summaryData contents).length / 2) + 1 ∧
      (∀ b lbl rec, b < (summaryData contents).length / 2 →
        summaryEntry (summaryData contents) true ((summaryData contents).length / 2) b =
          some (lbl, rec) →
        ∃ line2 t q,
          (summaryData contents).get? (b + (summaryData contents).length / 2 + 1) =
            some line2 ∧
          (pySplitWs line2).get? 4 = some t ∧ parseFloat? t = some q ∧
          rec.icohp_down = some q)) ∧
    (strContains mid ("distance") = false → out.is_spin_polarized = false) := by
  obtain ⟨mid2, entries, h1, h2, h3⟩ := icohplistRun_elim hrun
  rw [hmid] at h1
  obtain rfl := Option.some_inj.mp h1
  subst h3
  dsimp only
  constructor
  · intro hdist
    rw [hdist] at h2
    simp only [cond_true] at h2
    refine ⟨hdist, ?_, ?_⟩
    · have hmidlt : (summaryData contents).length / 2 < (summaryData contents).length := by
        by_contra hcon
        push_neg at hcon
        rw [List.get?_eq_none.mpr hcon] at hmid
        exact Option.noConfusion hmid
      by_cases hz : (summaryData contents).length / 2 = 0
      · omega
      · have hb : (summaryData contents).length / 2 - 1 ∈
            List.range ((summaryData contents).length / 2) := by
          rw [List.mem_range]
          omega
        obtain ⟨p, hp⟩ := omapM_mem_arg h2 hb
        obtain ⟨l0, e1, e2, t3, len, t4, ic, t5, num, -, -, -, -, -, -, -, -, -, hd⟩ :=
          summaryEntry_elim hp
        rcases hd with ⟨-, line2, t, down, hl2, -, -, -⟩ | ⟨hfalse, -⟩
        · have hlt : ((summaryData contents).length / 2 - 1) +
              (summaryData contents).length / 2 + 1 < (summaryData contents).length := by
            by_contra hcon
            push_neg at hcon
            rw [List.get?_eq_none.mpr hcon] at hl2
            exact Option.noConfusion hl2
          omega
        · exact Bool.noConfusion hfalse
    · intro b lbl rec hb hse
      obtain ⟨l0, e1, e2, t3, len, t4, ic, t5, num, -, -, -, -, -, -, -, -, -, hd⟩ :=
        summaryEntry_elim hse
      rcases hd with ⟨-, line2, t, down, hl2, ht, hq, hp⟩ | ⟨hfalse, -⟩
      · obtain ⟨-, rfl⟩ := Prod.ext_iff.mp hp
        exact ⟨line2, t, down, hl2, ht, hq, rfl⟩
      · exact Bool.noConfusion hfalse
  · intro hdist
    exact hdist

/-- C4 (witness): spin detection at `exC4file`, whose midpoint data line
is `a distance b`. -/
theorem c4_witness :
    (strContains ("a distance b") ("distance") = true →
      exC4out.is_spin_polarized = true ∧
      (summaryData exC4file).length = 2 * ((summaryData exC4file).length / 2) + 1 ∧
      (∀ b lbl rec, b < (summaryData exC4file).length / 2 →
        summaryEntry (summaryData exC4file) true ((summaryData exC4file).length / 2) b =
          some (lbl, rec) →
        ∃ line2 t q,
          (summaryData exC4file).get? (b + (summaryData exC4file).length / 2 + 1) =
            some line2 ∧
          (pySplitWs line2).get? 4 = some t ∧ parseFloat? t = some q ∧
          rec.icohp_down = some q)) ∧
    (strContains ("a distance b") ("distance") = false →
      exC4out.is_spin_polarized = false) :=
  @c4_spin_detection exC4file exC4out ("a distance b") (by decide) (by decide)

/-- C8 (counterexample): the claim says any data line that must be read
with fewer than 6 whitespace-separated columns makes construction fail,
but the minority-half line `1 Fe Fe 1.0 -2.5` of `exC8cexfile` has only
5 columns (only its column index 4 is accessed) and construction
succeeds. -/
theorem c8_counterexample :
    Icohplist.run exC8cexfile = some exC8cexout ∧
      summaryData exC8cexfile =
        [("1 Fe Fe 1.0 -2.0 1"), ("x distance y"), ("1 Fe Fe 1.0 -2.5")] ∧
      (pySplitWs ("1 Fe Fe 1.0 -2.5")).length = 5 := by
  decide

/-- C8 (amended): a summary file with fewer than 2 lines fails; on a
successful decode every majority-half data line has at least 6
whitespace-separated columns, and, when spin-polarized, every
minority-half line that is read has at least 5 columns (its integrated
value sits at column index 4; a 5-column minority line is accepted).
Failure is all-or-nothing: the decoder either returns a complete output
or `none`. -/
theorem c8_amended (contents : List String) :
    (contents.length < 2 → Icohplist.run contents = none) ∧
      (∀ out mid, Icohplist.run contents = some out →
        (summaryData contents).get? ((summaryData contents).length / 2) = some mid →
        ∀ b, b < cond (strContains mid ("distance"))
            ((summaryData contents).length / 2) (summaryData contents).length →
          (∃ line, (summaryData contents).get? b = some line ∧
            6 ≤ (pySplitWs line).length) ∧
          (strContains mid ("distance") = true →
            ∃ line2, (summaryData contents).get?
                (b + (summaryData contents).length / 2 + 1) = some line2 ∧
              5 ≤ (pySplitWs line2).length)) := by
  constructor
  · intro hlen
    have hd : summaryData contents = [] := by
      have hz : (summaryData contents).length = 0 := by
        simp only [summaryData, List.length_dropLast, List.length_drop]
        omega
      exact List.length_eq_zero.mp hz
    simp [Icohplist.run, hd, obind]
  · intro out mid hrun hmid b hb
    obtain ⟨mid2, entries, h1, h2, h3⟩ := icohplistRun_elim hrun
    rw [hmid] at h1
    obtain rfl := Option.some_inj.mp h1
    have hbmem : b ∈ List.range (cond (strContains mid ("distance"))
        ((summaryData contents).length / 2) (summaryData contents).length) := by
      rw [List.mem_range]
      exact hb
    obtain ⟨p, hp⟩ := omapM_mem_arg h2 hbmem
    obtain ⟨l0, e1, e2, t3, len, t4, ic, t5, num, hl0, -, -, -, -, -, -, ht5, -, hd⟩ :=
      summaryEntry_elim hp
    constructor
    · refine ⟨l0, hl0, ?_⟩
      by_contra hcon
      push_neg at hcon
      rw [List.get?_eq_none.mpr (by omega)] at ht5
      exact Option.noConfusion ht5
    · intro hdist
      rw [hdist] at hd
      simp only [cond_true] at hd
      rcases hd with ⟨-, line2, t, down, hl2, ht4, -, -⟩ | ⟨hfalse, -⟩
      · refine ⟨line2, hl2, ?_⟩
        by_contra hcon
        push_neg at hcon
        rw [List.get?_eq_none.mpr (by omega)] at ht4
        exact Option.noConfusion ht4
      · exact Bool.noConfusion hfalse

/-- C8 (amended, witness): a one-line file fails, and the single data
line of the well-formed `exC8file` has at least 6 columns. -/
theorem c8_witness :
    Icohplist.run (["x"]) = none ∧
      ((∃ line, (summaryData exC8file).get? 0 = some line ∧ 6 ≤ (pySplitWs line).length) ∧
        (strContains ("3 Fe Fe 2.0 -4.0 3") ("distance") = true →
          ∃ line2, (summaryData exC8file).get?
              (0 + (summaryData exC8file).length / 2 + 1) = some line2 ∧
            5 ≤ (pySplitWs line2).length)) :=
  ⟨(c8_amended (["x"])).1 (by decide),
   (c8_amended exC8file).2 exC8out ("3 Fe Fe 2.0 -4.0 3") (by decide) (by decide) 0
     (by decide)⟩

theorem obind_some (a : α) (f : α → Option β) : obind (some a) f = f a := rfl

/-- C1: column addressing of the curve decoder. For every successfully
decoded file with bond count `nb`, bond `i < nb` is assembled from the
columns at offsets `2*(i + s*(nb+1)) + 3` (COHP) and
`2*(i + s*(nb+1)) + 4` (ICOHP) from the energy column (the energy column
being column 0 of the transposed data) for each spin channel index `s`
present, while the synthetic average record is assembled from the
columns at offsets `1 + 2*s*(nb+1)` and `2 + 2*s*(nb+1)`. -/
theorem c1_column_addressing {contents : List String} {out : CohpcarOut}
    {nb : Int} {rows : List (List ℚ)} {i : Nat}
    (hrun : Cohpcar.run contents = some out)
    (hnb : headerNumBonds contents = some nb)
    (hrows : dataRows contents nb = some rows)
    (hi : (i : Int) < nb) :
    (∃ lbl rec, bondEntry contents rows nb out.is_spin_polarized i = some (lbl, rec) ∧
        getCol rows (2 * ((i : Int) + 0 * (nb + 1)) + 3) = some rec.cohp_up ∧
        getCol rows (2 * ((i : Int) + 0 * (nb + 1)) + 4) = some rec.icohp_up ∧
        (out.is_spin_polarized = true →
          ∃ cd idn, rec.cohp_down = some cd ∧ rec.icohp_down = some idn ∧
            getCol rows (2 * ((i : Int) + 1 * (nb + 1)) + 3) = some cd ∧
            getCol rows (2 * ((i : Int) + 1 * (nb + 1)) + 4) = some idn) ∧
        (out.is_spin_polarized = false →
          rec.cohp_down = none ∧ rec.icohp_down = none)) ∧
      (∃ avg, dictGet? out.cohp_data ("average") = some avg ∧
        getCol rows (1 + 2 * 0 * (nb + 1)) = some avg.cohp_up ∧
        getCol rows (2 + 2 * 0 * (nb + 1)) = some avg.icohp_up ∧
        (out.is_spin_polarized = true →
          ∃ cd idn, avg.cohp_down = some cd ∧ avg.icohp_down = some idn ∧
            getCol rows (1 + 2 * 1 * (nb + 1)) = some cd ∧
            getCol rows (2 + 2 * 1 * (nb + 1)) = some idn) ∧
        (out.is_spin_polarized = false →
          avg.cohp_down = none ∧ avg.icohp_down = none)) := by
  obtain ⟨nb2, ef, sf, rows2, energies, avg, entries, h1, h2, h3, h4, h5, h6, h7, h8⟩ :=
    cohpcarRun_elim hrun
  rw [hnb] at h1
  obtain rfl := Option.some_inj.mp h1
  rw [hrows] at h4
  obtain rfl := Option.some_inj.mp h4
  subst h8
  dsimp only
  constructor
  · have hget : (intRange nb).get? i = some i := by
      rw [intRange]
      rw [List.get?_eq_getElem?, List.getElem?_range (by omega)]
    obtain ⟨e, hbe, -⟩ := omapM_get h7 hget
    rcases e with ⟨lbl, rec⟩
    refine ⟨lbl, rec, hbe, ?_⟩
    obtain ⟨hline, bd, cu, iu, -, -, hcu, hiu, hd⟩ := bondEntry_elim hbe
    rcases hd with ⟨hspin, cd, idn, hcd, hidn, hp⟩ | ⟨hspin, hp⟩
    · obtain ⟨-, rfl⟩ := Prod.ext_iff.mp hp
      rw [hspin]
      exact ⟨hcu, hiu, (fun _ => ⟨cd, idn, rfl, rfl, hcd, hidn⟩),
        (fun hf => Bool.noConfusion hf)⟩
    · obtain ⟨-, rfl⟩ := Prod.ext_iff.mp hp
      rw [hspin]
      exact ⟨hcu, hiu, (fun hf => Bool.noConfusion hf), (fun _ => ⟨rfl, rfl⟩)⟩
  · obtain ⟨cu, iu, hcu, hiu, hd⟩ := avgEntry_elim h6
    have hdg : dictGet? (entries.foldl (fun acc p => dictSet acc p.1 p.2)
        (dictSet [] ("average") avg)) ("average") = some avg := by
      rw [dictGet?_foldl]
      have hfil : entries.filter (fun p => p.1 == ("average")) = [] := by
        rw [List.filter_eq_nil_iff]
        intro p hp
        have hne := bondEntry_label_ne (omapM_mem h7 hp).choose_spec.2
        simp [hne]
      rw [hfil]
      simp [dictGet?, dictSet, List.find?]
    rcases hd with ⟨hspin, cd, idn, hcd, hidn, rfl⟩ | ⟨hspin, rfl⟩
    · rw [hspin]
      exact ⟨_, hdg, hcu, hiu, (fun _ => ⟨cd, idn, rfl, rfl, hcd, hidn⟩),
        (fun hf => Bool.noConfusion hf)⟩
    · rw [hspin]
      exact ⟨_, hdg, hcu, hiu, (fun hf => Bool.noConfusion hf), (fun _ => ⟨rfl, rfl⟩)⟩

/-- C1 (witness): the column addressing instantiated at the
spin-polarized one-bond file `exC1file` (bond count 1, bond index 0). -/
theorem c1_witness :
    (∃ lbl rec, bondEntry exC1file exC1rows 1 exC1out.is_spin_polarized 0 =
        some (lbl, rec) ∧
        getCol exC1rows (2 * (((0 : Nat) : Int) + 0 * (1 + 1)) + 3) = some rec.cohp_up ∧
        getCol exC1rows (2 * (((0 : Nat) : Int) + 0 * (1 + 1)) + 4) = some rec.icohp_up ∧
        (exC1out.is_spin_polarized = true →
          ∃ cd idn, rec.cohp_down = some cd ∧ rec.icohp_down = some idn ∧
            getCol exC1rows (2 * (((0 : Nat) : Int) + 1 * (1 + 1)) + 3) = some cd ∧
            getCol exC1rows (2 * (((0 : Nat) : Int) + 1 * (1 + 1)) + 4) = some idn) ∧
        (exC1out.is_spin_polarized = false →
          rec.cohp_down = none ∧ rec.icohp_down = none)) ∧
      (∃ avg, dictGet? exC1out.cohp_data ("average") = some avg ∧
        getCol exC1rows (1 + 2 * 0 * (1 + 1)) = some avg.cohp_up ∧
        getCol exC1rows (2 + 2 * 0 * (1 + 1)) = some avg.icohp_up ∧
        (exC1out.is_spin_polarized = true →
          ∃ cd idn, avg.cohp_down = some cd ∧ avg.icohp_down = some idn ∧
            getCol exC1rows (1 + 2 * 1 * (1 + 1)) = some cd ∧
            getCol exC1rows (2 + 2 * 1 * (1 + 1)) = some idn) ∧
        (exC1out.is_spin_polarized = false →
          avg.cohp_down = none ∧ avg.icohp_down = none)) :=
  @c1_column_addressing exC1file exC1out 1 exC1rows 0 (by decide) (by decide) (by decide)
    (by decide)

/-- C10 (counterexample): with a header bond-count token of `0` the
decoder computes `num_bonds = -1` and the data slice
`contents[num_bonds + 3:]` starts at line index 2, so the third line of
the file is read: replacing it changes the (successful) output. -/
theorem c10_counterexample :
    Cohpcar.run exC10file = some exC10outA ∧
      Cohpcar.run (exC10file.set 2 ("9.0 2.0 3.0")) = some exC10outB ∧
      exC10outA ≠ exC10outB := by
  decide

/-- C10 (amended): whenever the header bond-count token parses to an
integer at least 1 (equivalently `num_bonds ≥ 0`, which holds for every
well-formed file since the count includes the synthetic average), the
curve decoder never reads line index 2: replacing that line leaves the
result, success or failure alike, unchanged. -/
theorem c10_amended {contents : List String} (x : String)
    (h : ∃ n, headerNumBonds contents = some n ∧ 0 ≤ n) :
    Cohpcar.run (contents.set 2 x) = Cohpcar.run contents := by
  obtain ⟨n, hn, hpos⟩ := h
  have hparams : headerParams (contents.set 2 x) = headerParams contents := by
    simp only [headerParams]
    rw [pyGet?_set_ne (by omega) (by omega)]
  have hnb2 : headerNumBonds (contents.set 2 x) = some n := by
    have hcopy := hn
    simp only [headerNumBonds, hparams] at hcopy ⊢
    exact hcopy
  have hef : headerEfermi (contents.set 2 x) = headerEfermi contents := by
    simp only [headerEfermi, hparams]
  have hsf : headerSpinFlag (contents.set 2 x) = headerSpinFlag contents := by
    simp only [headerSpinFlag, hparams]
  have hdr : dataRows (contents.set 2 x) n = dataRows contents n := by
    simp only [dataRows]
    rw [pySliceFrom_set_of_lt (by omega : ((2 : Nat) : Int) < n + 3)]
  have hbe : ∀ (rows : List (List ℚ)) (spin : Bool) (b : Nat),
      bondEntry (contents.set 2 x) rows n spin b = bondEntry contents rows n spin b := by
    intro rows spin b
    simp only [bondEntry]
    rw [pyGet?_set_ne (by omega) (by omega)]
  simp only [Cohpcar.run, hnb2, hn, obind_some]
  rw [hef]
  refine obind_congr ?_
  intro ef
  rw [hsf]
  refine obind_congr ?_
  intro sf
  rw [hdr]
  refine obind_congr ?_
  intro rows
  refine obind_congr ?_
  intro energies
  refine obind_congr ?_
  intro avg
  rw [omapM_congr (fun b _ => hbe rows (decide (sf = 2)) b)]

/-- C10 (amended, witness): replacing line index 2 of the well-formed
`exC10wfile` does not change the decode. -/
theorem c10_witness :
    Cohpcar.run (exC10wfile.set 2 ("zzz")) = Cohpcar.run exC10wfile :=
  c10_amended ("zzz") ⟨1, by decide, by decide⟩
